import Mathlib

set_option maxHeartbeats 1000000

/-!
Shallow embedding of the EpiGrimp layered raster editor
(src/src/mainwindow.cpp together with src/include/mainwindow.h; the file
contains an early and a later variant of the implementation, both embedded
where a claim refers to them).

Pixels are premultiplied RGBA samples with exact rational channels; a pixel
buffer is a list of rows.  Qt collaborator primitives (QPainter SourceOver
blending scaled by painter opacity, QImage::copy, QPainter Clear fill,
QRegion polygon membership) are embedded as explicit functions over this
representation; the shape rasterizers (drawLine / drawRect / drawEllipse)
are abstract function parameters of the event handlers that use them.
-/

/-- One premultiplied RGBA sample; channels are exact rationals
(the code stores RGBA8, here embedded with exact arithmetic). -/
structure Pixel where
  r : ℚ
  g : ℚ
  b : ℚ
  a : ℚ
  deriving DecidableEq, Repr

/-- The transparent pixel (premultiplied: all channels zero). -/
def Pixel.zero : Pixel := ⟨0, 0, 0, 0⟩

/-- A pixel buffer: a list of rows of pixels (QImage contents). -/
abbrev Buf := List (List Pixel)

/-- Height of a buffer (number of rows). -/
def bufH (img : Buf) : ℕ := img.length

/-- Width of a buffer (length of its first row; 0 for the empty buffer). -/
def bufW : Buf → ℕ
  | [] => 0
  | row :: _ => row.length

/-- Pixel lookup, `none` outside the stored grid. -/
def getPx? (img : Buf) (x y : ℕ) : Option Pixel :=
  (img.get? y).bind fun row => row.get? x

/-- Pixel lookup at integer coordinates, transparent outside the grid
(matches QImage::copy which fills areas beyond the image with pixel 0). -/
def pxD (img : Buf) (x y : ℤ) : Pixel :=
  if 0 ≤ x ∧ 0 ≤ y then (getPx? img x.toNat y.toNat).getD Pixel.zero
  else Pixel.zero

/-- QPainter SourceOver blending of premultiplied source `s` over
destination `d`, with the painter opacity `o` scaling the source
(opacity first scales all four premultiplied channels, then the
standard over operator applies). -/
def blendPx (o : ℚ) (s d : Pixel) : Pixel :=
  ⟨o * s.r + d.r * (1 - o * s.a), o * s.g + d.g * (1 - o * s.a),
   o * s.b + d.b * (1 - o * s.a), o * s.a + d.a * (1 - o * s.a)⟩

/-- Plain premultiplied alpha-over (no opacity scaling). -/
def overPx (s d : Pixel) : Pixel :=
  ⟨s.r + d.r * (1 - s.a), s.g + d.g * (1 - s.a),
   s.b + d.b * (1 - s.a), s.a + d.a * (1 - s.a)⟩

/-- Index-aware map over a list, starting at index `i`. -/
def imap (f : ℕ → α → α) : List α → ℕ → List α
  | [], _ => []
  | a :: t, i => f i a :: imap f t (i + 1)

theorem imap_length (f : ℕ → α → α) : ∀ (l : List α) (i : ℕ),
    (imap f l i).length = l.length := by
  intro l
  induction l with
  | nil => intro i; rfl
  | cons a t ih => intro i; simp [imap, ih]

theorem imap_get? (f : ℕ → α → α) : ∀ (l : List α) (i n : ℕ),
    (imap f l i).get? n = (l.get? n).map fun a => f (i + n) a := by
  intro l
  induction l with
  | nil => intro i n; simp [imap]
  | cons a t ih =>
      intro i n
      cases n with
      | zero => simp [imap]
      | succ m =>
          simp only [imap, List.get?_cons_succ]
          rw [ih (i + 1) m]
          have e : i + 1 + m = i + (m + 1) := by omega
          rw [e]

theorem imap_eq_self (f : ℕ → α → α) : ∀ (l : List α) (i : ℕ),
    (∀ n a, l.get? n = some a → f (i + n) a = a) → imap f l i = l := by
  intro l
  induction l with
  | nil => intro i _; rfl
  | cons a t ih =>
      intro i h
      have h0 : f i a = a := by
        have := h 0 a rfl
        simpa using this
      have ht : imap f t (i + 1) = t := by
        apply ih
        intro n b hb
        have := h (n + 1) b (by simpa using hb)
        have e : i + (n + 1) = i + 1 + n := by omega
        rw [e] at this
        exact this
      simp [imap, h0, ht]

/-- Integer rectangle, QRect style: `x1,y1` = left/top, `x2,y2` =
right/bottom, both inclusive (width = x2 - x1 + 1). -/
structure Rect where
  x1 : ℤ
  y1 : ℤ
  x2 : ℤ
  y2 : ℤ
  deriving DecidableEq, Repr

def rectW (r : Rect) : ℕ := (r.x2 - r.x1 + 1).toNat

def rectH (r : Rect) : ℕ := (r.y2 - r.y1 + 1).toNat

/-- Membership of an integer point in a QRect (inclusive bounds). -/
abbrev inRect (r : Rect) (x y : ℤ) : Prop :=
  r.x1 ≤ x ∧ x ≤ r.x2 ∧ r.y1 ≤ y ∧ y ≤ r.y2

/-- QPainter::drawImage of `src` onto `dst` at offset `(ox, oy)` with
painter opacity `o`, SourceOver composition, clipped to `dst`'s extent. -/
def overlay (dst src : Buf) (ox oy : ℤ) (o : ℚ) : Buf :=
  imap (fun y row => imap (fun x p =>
    match (if ox ≤ (x : ℤ) ∧ oy ≤ (y : ℤ)
           then getPx? src ((x : ℤ) - ox).toNat ((y : ℤ) - oy).toNat
           else none) with
    | some sp => blendPx o sp p
    | none => p) row 0) dst 0

/-- QImage::copy(r): sub-image of size rectW × rectH; pixels beyond the
source image are set to 0 (transparent). -/
def copyRect (img : Buf) (r : Rect) : Buf :=
  (List.range (rectH r)).map fun (j : ℕ) => (List.range (rectW r)).map fun (i : ℕ) =>
    pxD img (r.x1 + (i : ℤ)) (r.y1 + (j : ℤ))

/-- QPainter fillRect with CompositionMode_Clear: every pixel of the
rectangle becomes fully transparent, pixels outside are untouched. -/
def clearRect (img : Buf) (r : Rect) : Buf :=
  imap (fun y row => imap (fun x p =>
    if inRect r (x : ℤ) (y : ℤ) then Pixel.zero else p) row 0) img 0

/-- Embeds `Canvas::widgetToImage` (identical in both variants of the source):
maps a widget point to image coordinates given the centering offset and
zoom, returning the (-1,-1) sentinel when the unrounded coordinate falls
outside [0,w) × [0,h).  The source also returns the sentinel when a
coordinate is non-finite; with exact rational arithmetic a quotient is
always finite, so that disjunct cannot fire in this embedding.  The final
`int(ix + 0.5)` truncation equals the floor because `ix ≥ 0` holds on
that branch. -/
def widgetToImage (p off : ℤ × ℤ) (zoom : ℚ) (sz : ℕ × ℕ) : ℤ × ℤ :=
  if ((p.1 : ℚ) - (off.1 : ℚ)) / zoom < 0 ∨ ((p.2 : ℚ) - (off.2 : ℚ)) / zoom < 0 ∨
     (sz.1 : ℚ) ≤ ((p.1 : ℚ) - (off.1 : ℚ)) / zoom ∨
     (sz.2 : ℚ) ≤ ((p.2 : ℚ) - (off.2 : ℚ)) / zoom
  then (-1, -1)
  else (⌊((p.1 : ℚ) - (off.1 : ℚ)) / zoom + 1/2⌋,
        ⌊((p.2 : ℚ) - (off.2 : ℚ)) / zoom + 1/2⌋)

/-- C5 counterexample: widget point (7,7), offset (0,0), zoom 2, image
4 × 4.  The unrounded coordinate is 3.5, inside [0,4), so the sentinel is
not returned; rounding gives (4,4), which is NOT a pixel inside
[0,4) × [0,4) — refuting the final clause of the claim. -/
theorem c5_widgetToImage_cex :
    widgetToImage (7, 7) (0, 0) 2 (4, 4) = (4, 4) ∧
    ((4, 4) : ℤ × ℤ) ≠ (-1, -1) ∧ ¬((4 : ℤ) < 4) := by
  refine ⟨?_, by decide, by decide⟩
  norm_num [widgetToImage]

/-- C5 (amended): for positive zoom and positive dimensions, the sentinel
is returned exactly when the unrounded coordinate lies outside
[0,w) × [0,h) (non-finiteness cannot arise in exact arithmetic);
otherwise the result is the nearest-integer rounding, whose coordinates
lie in the closed box [0,w] × [0,h] — they can equal w or h. -/
theorem c5_widgetToImage_spec (px0 py0 ox0 oy0 : ℤ) (z : ℚ) (w h : ℕ)
    (hz : 0 < z) (hw : 0 < w) (hh : 0 < h) :
    (widgetToImage (px0, py0) (ox0, oy0) z (w, h) = (-1, -1) ↔
      (((px0 : ℚ) - (ox0 : ℚ)) / z < 0 ∨ ((py0 : ℚ) - (oy0 : ℚ)) / z < 0 ∨
        (w : ℚ) ≤ ((px0 : ℚ) - (ox0 : ℚ)) / z ∨
        (h : ℚ) ≤ ((py0 : ℚ) - (oy0 : ℚ)) / z)) ∧
    (¬(((px0 : ℚ) - (ox0 : ℚ)) / z < 0 ∨ ((py0 : ℚ) - (oy0 : ℚ)) / z < 0 ∨
        (w : ℚ) ≤ ((px0 : ℚ) - (ox0 : ℚ)) / z ∨
        (h : ℚ) ≤ ((py0 : ℚ) - (oy0 : ℚ)) / z) →
      widgetToImage (px0, py0) (ox0, oy0) z (w, h) =
        (⌊((px0 : ℚ) - (ox0 : ℚ)) / z + 1/2⌋, ⌊((py0 : ℚ) - (oy0 : ℚ)) / z + 1/2⌋) ∧
      0 ≤ ⌊((px0 : ℚ) - (ox0 : ℚ)) / z + 1/2⌋ ∧
      ⌊((px0 : ℚ) - (ox0 : ℚ)) / z + 1/2⌋ ≤ (w : ℤ) ∧
      0 ≤ ⌊((py0 : ℚ) - (oy0 : ℚ)) / z + 1/2⌋ ∧
      ⌊((py0 : ℚ) - (oy0 : ℚ)) / z + 1/2⌋ ≤ (h : ℤ)) := by
  have floorw : ∀ (q : ℚ) (n : ℕ), 0 ≤ q → q < (n : ℚ) →
      0 ≤ ⌊q + 1/2⌋ ∧ ⌊q + 1/2⌋ ≤ (n : ℤ) := by
    intro q n h0 hlt
    constructor
    · exact Int.le_floor.2 (by linarith)
    · have h1 : q + 1/2 ≤ (n : ℚ) + 1/2 := by linarith
      have h2 : ⌊q + 1/2⌋ ≤ ⌊(n : ℚ) + 1/2⌋ := Int.floor_le_floor h1
      have h3 : ⌊(n : ℚ) + 1/2⌋ = (n : ℤ) := by
        rw [show ((n : ℚ) + 1/2) = 1/2 + ((n : ℤ) : ℚ) by push_cast; ring]
        rw [Int.floor_add_int]
        norm_num
      omega
  constructor
  · constructor
    · intro hEq
      by_contra hC
      rw [widgetToImage, if_neg hC] at hEq
      push_neg at hC
      obtain ⟨hx0, _, hxw, _⟩ := hC
      have := (floorw _ w hx0 hxw).1
      have hfst : ⌊((px0 : ℚ) - (ox0 : ℚ)) / z + 1/2⌋ = -1 :=
        congrArg Prod.fst hEq
      omega
    · intro hC
      rw [widgetToImage, if_pos hC]
  · intro hC
    rw [widgetToImage, if_neg hC]
    push_neg at hC
    obtain ⟨hx0, hy0, hxw, hyh⟩ := hC
    have hx := floorw _ w hx0 hxw
    have hy := floorw _ h hy0 hyh
    exact ⟨rfl, hx.1, hx.2, hy.1, hy.2⟩

/-- Witness for `c5_widgetToImage_spec` at (p,o,z,w,h) = ((0,0),(0,0),1,1,1). -/
theorem c5_widgetToImage_spec_witness :
    widgetToImage (0, 0) (0, 0) 1 (1, 1) = (0, 0) := by
  have hmain := c5_widgetToImage_spec 0 0 0 0 1 1 1 (by norm_num) (by norm_num) (by norm_num)
  have hin : ¬(((0 : ℚ) - (0 : ℚ)) / 1 < 0 ∨ ((0 : ℚ) - (0 : ℚ)) / 1 < 0 ∨
      ((1 : ℕ) : ℚ) ≤ ((0 : ℚ) - (0 : ℚ)) / 1 ∨
      ((1 : ℕ) : ℚ) ≤ ((0 : ℚ) - (0 : ℚ)) / 1) := by norm_num
  have h2 := (hmain.2 (by push_cast at hin ⊢; norm_num)).1
  rw [h2]
  norm_num

/-- The tool enum of `Canvas` (later variant; the early variant has the
first five constructors only). -/
inductive Tool where
  | BRUSH
  | ERASER
  | LINE
  | RECTANGLE
  | CIRCLE
  | RECT_SELECT
  | LASSO_SELECT
  | TEXT
  deriving DecidableEq, Repr

/-- The mutable state of `Canvas` relevant to the pointer state machine.
`targetImg` is the buffer the canvas draws into (in the application it
aliases the active layer's image).  The source guards every handler with
`if (!targetImg) return;`; the embedding models a canvas whose target is
set, which is the situation every claim is about. -/
structure CanvasState where
  targetImg : Buf
  imageOffset : ℤ × ℤ
  zoom : ℚ
  currentTool : Tool
  startPoint : ℤ × ℤ
  lastPoint : ℤ × ℤ
  selecting : Bool
  selectionRect : Rect
  lassoPolygon : List (ℤ × ℤ)
  hasSelection : Bool
  deriving DecidableEq, Repr

/-- Embeds `QRect(p1, p2).normalized()`: the rectangle spanning the two corner
points with non-negative width and height. -/
def normRect (a b : ℤ × ℤ) : Rect :=
  ⟨min a.1 b.1, min a.2 b.2, max a.1 b.1, max a.2 b.2⟩

/-- Embeds `QRect::setBottomRight`. -/
def setBottomRight (r : Rect) (p : ℤ × ℤ) : Rect :=
  { r with x2 := p.1, y2 := p.2 }

/-- Embeds `QRect::isNull`: both width and height are zero. -/
abbrev isNullRect (r : Rect) : Prop :=
  r.x2 = r.x1 - 1 ∧ r.y2 = r.y1 - 1

/-- Embeds `Canvas::mouseReleaseEvent`, EARLY variant (first copy of
mainwindow.cpp, lines 208-250), for a left-button release.  The Qt shape
rasterizers are abstract parameters `dl` (drawLine), `dr` (drawRect on
the normalized rectangle) and `de` (drawEllipse on the normalized
rectangle).  Out-of-bounds release resets the transient points and
commits nothing; in bounds, LINE/RECTANGLE/CIRCLE commit exactly one
primitive and reset the points; other tools only reset. -/
def mouseReleaseEarly (dl : ℤ × ℤ → ℤ × ℤ → Buf → Buf)
    (dr de : Rect → Buf → Buf) (c : CanvasState) (pos : ℤ × ℤ) : CanvasState :=
  let endPt := widgetToImage pos c.imageOffset c.zoom (bufW c.targetImg, bufH c.targetImg)
  if endPt = (-1, -1) then
    { c with lastPoint := (-1, -1), startPoint := (-1, -1) }
  else if c.currentTool = Tool.LINE then
    { c with targetImg := dl c.startPoint endPt c.targetImg,
             lastPoint := (-1, -1), startPoint := (-1, -1) }
  else if c.currentTool = Tool.RECTANGLE then
    { c with targetImg := dr (normRect c.startPoint endPt) c.targetImg,
             lastPoint := (-1, -1), startPoint := (-1, -1) }
  else if c.currentTool = Tool.CIRCLE then
    { c with targetImg := de (normRect c.startPoint endPt) c.targetImg,
             lastPoint := (-1, -1), startPoint := (-1, -1) }
  else
    { c with lastPoint := (-1, -1), startPoint := (-1, -1) }

/-- Embeds `Canvas::mouseReleaseEvent`, LATER variant (second copy of
mainwindow.cpp, lines 1101-1123), for a left-button release.  The whole
body is guarded by `selecting`; it only finalizes a selection gesture and
updates `_hasSelection`.  No branch commits a shape primitive and no
branch resets `startPoint`/`lastPoint`. -/
def mouseReleaseLater (c : CanvasState) (pos : ℤ × ℤ) : CanvasState :=
  if c.selecting then
    let imgPt := widgetToImage pos c.imageOffset c.zoom (bufW c.targetImg, bufH c.targetImg)
    let c1 :=
      if imgPt ≠ (-1, -1) then
        if c.currentTool = Tool.RECT_SELECT then
          { c with selectionRect := setBottomRight c.selectionRect imgPt }
        else if c.currentTool = Tool.LASSO_SELECT then
          { c with lassoPolygon := c.lassoPolygon ++ [imgPt] }
        else c
      else c
    let c2 := { c1 with selecting := false }
    if c2.currentTool = Tool.RECT_SELECT ∧ ¬isNullRect c2.selectionRect then
      { c2 with hasSelection := true }
    else if c2.currentTool = Tool.LASSO_SELECT ∧ c2.lassoPolygon ≠ [] then
      { c2 with hasSelection := true }
    else
      { c2 with hasSelection := false }
  else c

/-- Opaque white pixel. -/
def pxWhite : Pixel := ⟨1, 1, 1, 1⟩

/-- A 4 × 4 opaque white buffer. -/
def buf4 : Buf := List.replicate 4 (List.replicate 4 pxWhite)

/-- Canvas mid-gesture with the Line tool: anchor recorded at (0,0). -/
def c4state : CanvasState :=
  { targetImg := buf4, imageOffset := (0, 0), zoom := 1,
    currentTool := Tool.LINE, startPoint := (0, 0), lastPoint := (0, 0),
    selecting := false, selectionRect := ⟨0, 0, -1, -1⟩,
    lassoPolygon := [], hasSelection := false }

/-- C4: with the Line tool active, anchor (0,0) recorded and an in-bounds
release at widget point (2,2) (which maps to image point (2,2)), the
EARLY variant commits exactly one line primitive from anchor to release
point and resets the transient points — but the LATER variant's release
handler, whose body is guarded by `selecting`, leaves the canvas state
completely unchanged: no primitive is committed and the anchor is not
reset.  This exhibits the claim's failure on the later variant. -/
theorem c4_shape_commit_regression (dl : ℤ × ℤ → ℤ × ℤ → Buf → Buf)
    (dr de : Rect → Buf → Buf) :
    mouseReleaseEarly dl dr de c4state (2, 2) =
      { c4state with targetImg := dl (0, 0) (2, 2) buf4,
                     startPoint := (-1, -1), lastPoint := (-1, -1) } ∧
    mouseReleaseLater c4state (2, 2) = c4state ∧
    c4state.startPoint = (0, 0) ∧ c4state.currentTool = Tool.LINE := by
  have hmap : widgetToImage (2, 2) c4state.imageOffset c4state.zoom
      (bufW c4state.targetImg, bufH c4state.targetImg) = (2, 2) := by
    norm_num [widgetToImage, c4state, buf4, bufW, bufH, Prod.ext_iff,
      List.replicate_succ]
  refine ⟨?_, by rfl, rfl, rfl⟩
  simp only [mouseReleaseEarly, hmap]
  norm_num [c4state]

/-- A layer (struct `Layer` in mainwindow.h): display name, pixel buffer,
per-layer undo and redo stacks of full-buffer snapshots, opacity. -/
structure Layer where
  name : String
  image : Buf
  undoStack : List Buf
  redoStack : List Buf
  opacity : ℚ
  deriving DecidableEq, Repr

/-- Layer-level content of `MainWindow::pushUndoForActiveLayer`: append a
copy of the current image to the undo stack, then remove the oldest entry
(index 0) if the stack exceeds MAX_UNDO = 20. -/
def Layer.pushUndo (L : Layer) : Layer :=
  let u := L.undoStack ++ [L.image]
  { L with undoStack := if 20 < u.length then u.drop 1 else u }

/-- Layer-level content of `MainWindow::undo`: when the undo stack is
empty only a status message is shown (no state change); otherwise the
current image is appended to the redo stack and the most recent undo
snapshot is popped into the live image. -/
def Layer.undoOp (L : Layer) : Layer :=
  match L.undoStack.getLast? with
  | none => L
  | some prev =>
      { L with image := prev, undoStack := L.undoStack.dropLast,
               redoStack := L.redoStack ++ [L.image] }

/-- Layer-level content of `MainWindow::redo` (mirror of undo). -/
def Layer.redoOp (L : Layer) : Layer :=
  match L.redoStack.getLast? with
  | none => L
  | some next =>
      { L with image := next, redoStack := L.redoStack.dropLast,
               undoStack := L.undoStack ++ [L.image] }

/-- One committed mutation preceded by its undo snapshot, as performed by
`Canvas` gestures: `onStrokeStarted` runs `pushUndoForActiveLayer` and
`clearRedoForActiveLayer`, then the gesture replaces the image. -/
def Layer.mutate (f : Buf → Buf) (L : Layer) : Layer :=
  let L1 := L.pushUndo
  { L1 with image := f L1.image, redoStack := [] }

/-- A sequence of snapshot-preceded mutations applied in order. -/
def Layer.mutSeq (L : Layer) : List (Buf → Buf) → Layer
  | [] => L
  | f :: fs => (L.mutate f).mutSeq fs

/-- The undo snapshots a mutation sequence pushes, oldest first. -/
def Layer.snaps (L : Layer) : List (Buf → Buf) → List Buf
  | [] => []
  | f :: fs => L.image :: (L.mutate f).snaps fs

theorem Layer.snaps_length : ∀ (fs : List (Buf → Buf)) (L : Layer),
    (L.snaps fs).length = fs.length := by
  intro fs
  induction fs with
  | nil => intro L; rfl
  | cons f fs ih => intro L; simp [Layer.snaps, ih]

theorem headD_concat (S : List α) (b d : α) :
    (S ++ [b]).headD d = S.headD b := by
  cases S <;> rfl

/-- Popping `n` undo entries: if the undo stack ends with a segment `S` of
length `n`, the final image is the head of `S` (or the current image when
`n = 0`). -/
theorem undo_pops : ∀ (n : ℕ) (M : Layer) (D S : List Buf),
    S.length = n → M.undoStack = D ++ S →
    (Layer.undoOp^[n] M).image = S.headD M.image := by
  intro n
  induction n with
  | zero =>
      intro M D S hS _
      rw [List.length_eq_zero] at hS
      subst hS
      rfl
  | succ n ih =>
      intro M D S hS hM
      rcases List.eq_nil_or_concat S with h0 | ⟨S', b, hS'⟩
      · rw [h0] at hS; simp at hS
      rw [List.concat_eq_append] at hS'
      subst hS'
      have hM2 : M.undoStack = (D ++ S') ++ [b] := by
        rw [hM, List.append_assoc]
      have hstep : Layer.undoOp M =
          { M with image := b, undoStack := D ++ S',
                   redoStack := M.redoStack ++ [M.image] } := by
        rw [Layer.undoOp, hM2, List.getLast?_concat, List.dropLast_concat]
      have hlen : S'.length = n := by
        simp at hS
        omega
      have hu : (Layer.undoOp M).undoStack = D ++ S' := by rw [hstep]
      have himg : (Layer.undoOp M).image = b := by rw [hstep]
      have hres := ih (Layer.undoOp M) D S' hlen hu
      rw [himg] at hres
      rw [Function.iterate_succ_apply, hres, headD_concat]

theorem drop_append_le : ∀ (l1 l2 : List α) (k : ℕ), k ≤ l1.length →
    (l1 ++ l2).drop k = l1.drop k ++ l2 := by
  intro l1
  induction l1 with
  | nil =>
      intro l2 k hk
      simp at hk
      subst hk
      rfl
  | cons a t ih =>
      intro l2 k hk
      cases k with
      | zero => rfl
      | succ m =>
          simp only [List.cons_append, List.drop_succ_cons]
          exact ih l2 m (by simpa using hk)

/-- Shape of the undo stack after at most 20 snapshot-preceded mutations:
the original stack minus `k` evicted oldest entries, followed by all the
mutation snapshots (none of which is ever evicted, because eviction only
fires above 20 entries and at most 20 snapshots were pushed). -/
theorem mutSeq_stack : ∀ (fs : List (Buf → Buf)) (L : Layer),
    fs.length ≤ 20 →
    ∃ k, k ≤ L.undoStack.length + fs.length - 20 ∧
      (L.mutSeq fs).undoStack = L.undoStack.drop k ++ L.snaps fs := by
  intro fs
  induction fs with
  | nil =>
      intro L _
      exact ⟨0, Nat.zero_le _, by simp [Layer.mutSeq, Layer.snaps]⟩
  | cons f fs ih =>
      intro L hn
      have hfs : fs.length ≤ 20 := by simp at hn; omega
      have hms : L.mutSeq (f :: fs) = (L.mutate f).mutSeq fs := rfl
      have hsn : L.snaps (f :: fs) = L.image :: (L.mutate f).snaps fs := rfl
      by_cases hc : 20 < L.undoStack.length + 1
      · -- eviction: the stack already holds at least 20 entries
        have h20 : 20 ≤ L.undoStack.length := by omega
        have hstack1 : (L.mutate f).undoStack =
            L.undoStack.drop 1 ++ [L.image] := by
          simp only [Layer.mutate, Layer.pushUndo]
          rw [if_pos (by simpa using hc)]
          exact drop_append_le _ _ 1 (by omega)
        obtain ⟨k', hk', hst⟩ := ih (L.mutate f) hfs
        rw [hstack1] at hk' hst
        have hlen1 : (L.undoStack.drop 1 ++ [L.image]).length =
            L.undoStack.length := by
          simp
          omega
        rw [hlen1] at hk'
        have hk'le : k' ≤ (L.undoStack.drop 1).length := by
          simp
          simp at hn
          omega
        refine ⟨k' + 1, by simp at hn ⊢; omega, ?_⟩
        rw [hms, hst, drop_append_le _ _ k' hk'le, List.drop_drop, hsn]
        have e : k' + 1 = 1 + k' := by omega
        rw [e, List.append_assoc]
        rfl
      · -- no eviction
        have hstack1 : (L.mutate f).undoStack =
            L.undoStack ++ [L.image] := by
          simp only [Layer.mutate, Layer.pushUndo]
          rw [if_neg (by simpa using hc)]
        obtain ⟨k', hk', hst⟩ := ih (L.mutate f) hfs
        rw [hstack1] at hk' hst
        have hk'le : k' ≤ L.undoStack.length := by
          simp at hk' hn
          omega
        refine ⟨k', by simp at hk' hn ⊢; omega, ?_⟩
        rw [hms, hst, drop_append_le _ _ k' hk'le, hsn, List.append_assoc]
        rfl

/-- Layer-level undo round trip: after at most 20 snapshot-preceded
mutations, that many undos restore the image that was live before the
first mutation, bit for bit. -/
theorem Layer.mutSeq_undo_image (fs : List (Buf → Buf)) (L : Layer)
    (hn : fs.length ≤ 20) :
    (Layer.undoOp^[fs.length] (L.mutSeq fs)).image = L.image := by
  obtain ⟨k, _, hstack⟩ := mutSeq_stack fs L hn
  have h := undo_pops fs.length (L.mutSeq fs) (L.undoStack.drop k)
    (L.snaps fs) (Layer.snaps_length fs L) hstack
  rw [h]
  cases fs with
  | nil => rfl
  | cons f fs => rfl

/-- Layer-level redo-after-undo: with a nonempty undo stack, redo right
after undo restores exactly the image the undo replaced. -/
theorem Layer.redo_undo_image (L : Layer) (h : L.undoStack ≠ []) :
    (Layer.redoOp (Layer.undoOp L)).image = L.image := by
  rcases List.eq_nil_or_concat L.undoStack with h0 | ⟨S, b, hS⟩
  · exact absurd h0 h
  rw [List.concat_eq_append] at hS
  have hstep : Layer.undoOp L =
      { L with image := b, undoStack := S,
               redoStack := L.redoStack ++ [L.image] } := by
    rw [Layer.undoOp, hS, List.getLast?_concat, List.dropLast_concat]
  rw [hstep, Layer.redoOp]
  simp [List.getLast?_concat]

/-- Replace the element at index `n` by `f` of it (no-op out of range). -/
def updateNth (f : α → α) : List α → ℕ → List α
  | [], _ => []
  | a :: t, 0 => f a :: t
  | a :: t, n + 1 => a :: updateNth f t n

theorem updateNth_length (f : α → α) : ∀ (l : List α) (n : ℕ),
    (updateNth f l n).length = l.length := by
  intro l
  induction l with
  | nil => intro n; rfl
  | cons a t ih =>
      intro n
      cases n with
      | zero => rfl
      | succ m => simp [updateNth, ih]

theorem updateNth_get?_eq (f : α → α) : ∀ (l : List α) (n : ℕ),
    (updateNth f l n).get? n = (l.get? n).map f := by
  intro l
  induction l with
  | nil => intro n; rfl
  | cons a t ih =>
      intro n
      cases n with
      | zero => rfl
      | succ m => simpa [updateNth] using ih m

theorem updateNth_get?_ne (f : α → α) : ∀ (l : List α) (n m : ℕ), n ≠ m →
    (updateNth f l n).get? m = l.get? m := by
  intro l
  induction l with
  | nil => intro n m _; rfl
  | cons a t ih =>
      intro n m hnm
      cases n with
      | zero =>
          cases m with
          | zero => exact absurd rfl hnm
          | succ k => rfl
      | succ n' =>
          cases m with
          | zero => rfl
          | succ k => simpa [updateNth] using ih n' k (by omega)

theorem updateNth_updateNth (f g : α → α) : ∀ (l : List α) (n : ℕ),
    updateNth g (updateNth f l n) n = updateNth (fun a => g (f a)) l n := by
  intro l
  induction l with
  | nil => intro n; rfl
  | cons a t ih =>
      intro n
      cases n with
      | zero => rfl
      | succ m => simp [updateNth, ih]

theorem updateNth_id : ∀ (l : List α) (n : ℕ), updateNth (fun a => a) l n = l := by
  intro l
  induction l with
  | nil => intro n; rfl
  | cons a t ih =>
      intro n
      cases n with
      | zero => rfl
      | succ m => simp [updateNth, ih]

/-- The canvas selection state that `MainWindow`'s clipboard slots read
through `canvas->hasSelection() / getSelectionRect() / getLassoPolygon()`. -/
structure CanvasSel where
  currentTool : Tool
  hasSelection : Bool
  selectionRect : Rect
  lassoPolygon : List (ℤ × ℤ)
  deriving DecidableEq, Repr

/-- The `MainWindow` state: the layer stack, the active index (an `int`
in the source, hence ℤ here), the copy/cut clipboard `selectionBuffer`
(a null `QImage` is `none`), and the canvas selection state.  The canvas
`targetImg` pointer aliases the active layer's image; operations that
read it consult the active layer directly. -/
structure AppState where
  layers : List Layer
  activeLayerIndex : ℤ
  selectionBuffer : Option Buf
  canvas : CanvasSel
  deriving DecidableEq, Repr

/-- The guard `!(activeLayerIndex < 0 || activeLayerIndex >= layers.size())`. -/
abbrev validIdx (s : AppState) : Prop :=
  0 ≤ s.activeLayerIndex ∧ s.activeLayerIndex < (s.layers.length : ℤ)

/-- Apply `f` to the active layer behind the source's index guard
`if (activeLayerIndex < 0 || activeLayerIndex >= layers.size()) return;`. -/
def AppState.withActive (f : Layer → Layer) (s : AppState) : AppState :=
  if 0 ≤ s.activeLayerIndex ∧ s.activeLayerIndex < (s.layers.length : ℤ) then
    { s with layers := updateNth f s.layers s.activeLayerIndex.toNat }
  else s

/-- The active layer, when the index designates one. -/
def AppState.getActive? (s : AppState) : Option Layer :=
  if 0 ≤ s.activeLayerIndex then s.layers.get? s.activeLayerIndex.toNat
  else none

/-- The active layer's live buffer. -/
def AppState.activeImage? (s : AppState) : Option Buf :=
  (s.getActive?).map fun L => L.image

/-- Embeds `MainWindow::pushUndoForActiveLayer`. -/
def AppState.pushUndoForActiveLayer (s : AppState) : AppState :=
  s.withActive Layer.pushUndo

/-- Embeds `MainWindow::clearRedoForActiveLayer`. -/
def AppState.clearRedoForActiveLayer (s : AppState) : AppState :=
  s.withActive fun L => { L with redoStack := [] }

/-- Embeds `MainWindow::onStrokeStarted` (slot of `Canvas::strokeStarted`,
emitted on pointer press BEFORE any pixel is modified): push the undo
snapshot, then clear the redo stack. -/
def AppState.onStrokeStarted (s : AppState) : AppState :=
  s.clearRedoForActiveLayer.pushUndoForActiveLayer |>.clearRedoForActiveLayer

/-- Embeds `MainWindow::undo` (the trailing `compositeLayers()` only refreshes
the display and does not touch any layer). -/
def AppState.undo (s : AppState) : AppState :=
  s.withActive Layer.undoOp

/-- Embeds `MainWindow::redo`. -/
def AppState.redo (s : AppState) : AppState :=
  s.withActive Layer.redoOp

/-- One snapshot-preceded buffer mutation as driven by a canvas gesture:
the press emits `strokeStarted` (undo snapshot + redo clear), then the
gesture writes into the active layer's buffer through `targetImg`. -/
def AppState.strokeMutation (f : Buf → Buf) (s : AppState) : AppState :=
  (s.pushUndoForActiveLayer.clearRedoForActiveLayer).withActive
    fun L => { L with image := f L.image }

/-- A sequence of snapshot-preceded mutations. -/
def stateMutSeq (s : AppState) (fs : List (Buf → Buf)) : AppState :=
  fs.foldl (fun t f => t.strokeMutation f) s

theorem withActive_comp (f g : Layer → Layer) (s : AppState) :
    (s.withActive f).withActive g = s.withActive fun L => g (f L) := by
  by_cases h : 0 ≤ s.activeLayerIndex ∧ s.activeLayerIndex < (s.layers.length : ℤ)
  · simp [AppState.withActive, h, updateNth_length, updateNth_updateNth]
  · simp [AppState.withActive, h]

theorem withActive_id (s : AppState) : s.withActive (fun L => L) = s := by
  by_cases h : 0 ≤ s.activeLayerIndex ∧ s.activeLayerIndex < (s.layers.length : ℤ)
  · simp [AppState.withActive, h, updateNth_id]
  · simp [AppState.withActive, h]

theorem withActive_idx (f : Layer → Layer) (s : AppState) :
    (s.withActive f).activeLayerIndex = s.activeLayerIndex := by
  unfold AppState.withActive
  split <;> rfl

theorem withActive_canvas (f : Layer → Layer) (s : AppState) :
    (s.withActive f).canvas = s.canvas := by
  unfold AppState.withActive
  split <;> rfl

theorem withActive_selectionBuffer (f : Layer → Layer) (s : AppState) :
    (s.withActive f).selectionBuffer = s.selectionBuffer := by
  unfold AppState.withActive
  split <;> rfl

theorem getActive?_withActive (f : Layer → Layer) (s : AppState)
    (h : validIdx s) :
    (s.withActive f).getActive? = (s.getActive?).map f := by
  unfold AppState.withActive AppState.getActive?
  rw [if_pos h]
  simp only [if_pos h.1]
  exact updateNth_get?_eq f s.layers s.activeLayerIndex.toNat

theorem getActive?_isSome (s : AppState) (h : validIdx s) :
    ∃ L, s.getActive? = some L := by
  have hlt : s.activeLayerIndex.toNat < s.layers.length := by
    obtain ⟨h1, h2⟩ := h
    omega
  refine ⟨s.layers.get ⟨s.activeLayerIndex.toNat, hlt⟩, ?_⟩
  unfold AppState.getActive?
  rw [if_pos h.1]
  exact List.get?_eq_get hlt

theorem getActive?_some_valid (s : AppState) (L : Layer)
    (h : s.getActive? = some L) : validIdx s := by
  by_cases h0 : 0 ≤ s.activeLayerIndex
  · have hg : s.layers.get? s.activeLayerIndex.toNat = some L := by
      simpa [AppState.getActive?, h0] using h
    have := List.get?_eq_some.1 hg
    obtain ⟨hlt, _⟩ := this
    exact ⟨h0, by omega⟩
  · simp [AppState.getActive?, h0] at h

theorem strokeMutation_eq (f : Buf → Buf) (s : AppState) :
    s.strokeMutation f = s.withActive (Layer.mutate f) := by
  unfold AppState.strokeMutation AppState.pushUndoForActiveLayer
    AppState.clearRedoForActiveLayer
  rw [withActive_comp, withActive_comp]
  rfl

theorem stateMutSeq_eq : ∀ (fs : List (Buf → Buf)) (s : AppState),
    stateMutSeq s fs = s.withActive fun L => L.mutSeq fs := by
  intro fs
  induction fs with
  | nil =>
      intro s
      exact (withActive_id s).symm
  | cons f fs ih =>
      intro s
      have h1 : stateMutSeq s (f :: fs) = stateMutSeq (s.strokeMutation f) fs := rfl
      rw [h1, ih, strokeMutation_eq, withActive_comp]
      rfl

theorem undo_iterate : ∀ (n : ℕ) (s : AppState),
    AppState.undo^[n] s = s.withActive (Layer.undoOp^[n]) := by
  intro n
  induction n with
  | zero =>
      intro s
      exact (withActive_id s).symm
  | succ n ih =>
      intro s
      rw [Function.iterate_succ_apply, ih, AppState.undo, withActive_comp]
      have e : (fun L => Layer.undoOp^[n] (Layer.undoOp L)) = Layer.undoOp^[n + 1] := by
        funext L
        rw [Function.iterate_succ_apply]
      rw [e]

/-- C2: per-layer undo/redo round trip.  First part: for any valid state
and any sequence of at most 20 snapshot-preceded buffer mutations,
undoing as many times as there were mutations restores the active
layer's buffer bit-for-bit.  Second part: whenever the active layer has
a nonempty undo stack, `redo()` immediately after `undo()` restores
exactly the buffer the undo replaced. -/
theorem c2_undo_redo_roundtrip :
    (∀ (s : AppState) (fs : List (Buf → Buf)), validIdx s → fs.length ≤ 20 →
      (AppState.undo^[fs.length] (stateMutSeq s fs)).activeImage? = s.activeImage?) ∧
    (∀ (s : AppState) (L : Layer), s.getActive? = some L → L.undoStack ≠ [] →
      (s.undo.redo).activeImage? = s.activeImage?) := by
  constructor
  · intro s fs hv hn
    rw [stateMutSeq_eq, undo_iterate, withActive_comp]
    obtain ⟨L, hL⟩ := getActive?_isSome s hv
    simp [AppState.activeImage?, getActive?_withActive _ _ hv, hL,
      Layer.mutSeq_undo_image fs L hn]
  · intro s L hL hne
    have hv := getActive?_some_valid s L hL
    rw [AppState.undo, AppState.redo, withActive_comp]
    simp [AppState.activeImage?, getActive?_withActive _ _ hv, hL,
      Layer.redo_undo_image L hne]

/-- Default empty canvas selection state. -/
def cselNone : CanvasSel := ⟨Tool.BRUSH, false, ⟨0, 0, -1, -1⟩, []⟩

/-- A one-layer state: a single 1 × 1 opaque white layer, no history. -/
def sOne : AppState :=
  { layers := [⟨"Layer 1", [[pxWhite]], [], [], 1⟩],
    activeLayerIndex := 0, selectionBuffer := none, canvas := cselNone }

/-- A one-layer state whose layer has a nonempty undo stack. -/
def sOneUndo : AppState :=
  { layers := [⟨"Layer 1", [[pxWhite]], [[[Pixel.zero]]], [], 1⟩],
    activeLayerIndex := 0, selectionBuffer := none, canvas := cselNone }

/-- Witness for `c2_undo_redo_roundtrip`: one mutation then one undo on a
concrete one-layer state, and redo-after-undo on a concrete state with
one undo entry. -/
theorem c2_undo_redo_roundtrip_witness :
    (AppState.undo^[1] (stateMutSeq sOne [fun _ => [[Pixel.zero]]])).activeImage? =
      sOne.activeImage? ∧
    (sOneUndo.undo.redo).activeImage? = sOneUndo.activeImage? := by
  constructor
  · exact c2_undo_redo_roundtrip.1 sOne [fun _ => [[Pixel.zero]]]
      (by constructor <;> simp [sOne]) (by simp)
  · exact c2_undo_redo_roundtrip.2 sOneUndo ⟨"Layer 1", [[pxWhite]], [[[Pixel.zero]]], [], 1⟩
      (by simp [sOneUndo, AppState.getActive?]) (by simp)

/-- Embeds `MainWindow::removeLayer`: refuses (message box only, a collaborator)
when at most one layer remains; otherwise removes the active layer and
activates the topmost remaining layer (`layers.size() - 1` after
removal); UI-list bookkeeping is collaborator-side. -/
def AppState.removeLayer (s : AppState) : AppState :=
  if s.layers.length ≤ 1 then s
  else
    let ls := s.layers.eraseIdx s.activeLayerIndex.toNat
    { s with layers := ls, activeLayerIndex := (ls.length : ℤ) - 1 }

/-- Embeds `MainWindow::deleteLayer` (layer-panel context menu): same floor
guard and same removal logic as `removeLayer`. -/
def AppState.deleteLayer (s : AppState) : AppState :=
  if s.layers.length ≤ 1 then s
  else
    let ls := s.layers.eraseIdx s.activeLayerIndex.toNat
    { s with layers := ls, activeLayerIndex := (ls.length : ℤ) - 1 }

/-- C9: with exactly one layer in the stack, both removal paths refuse
and leave the entire state — layer list (hence buffer and histories) and
active index — unchanged. -/
theorem c9_last_layer_floor (s : AppState) (h : s.layers.length = 1) :
    s.removeLayer = s ∧ s.deleteLayer = s := by
  constructor <;> simp [AppState.removeLayer, AppState.deleteLayer, h]

/-- Witness for `c9_last_layer_floor` on a concrete one-layer state. -/
theorem c9_last_layer_floor_witness :
    sOne.removeLayer = sOne ∧ sOne.deleteLayer = sOne :=
  c9_last_layer_floor sOne rfl

/-- Embeds `MainWindow::openFile`.  The file dialog and `QImage::load` are
collaborators: `res = none` models a cancelled dialog or a failed decode
(both early-return paths of the source), `res = some img` the decoded
image already converted to premultiplied RGBA
(`convertToFormat(Format_ARGB32_Premultiplied)`).  On success the active
layer's buffer is replaced and BOTH of its histories are cleared.  The
source indexes `layers[activeLayerIndex]` here without a guard; the
embedding reuses the guarded active-layer update and the theorem assumes
a valid index. -/
def AppState.openFile (s : AppState) (res : Option Buf) : AppState :=
  match res with
  | none => s
  | some img =>
      s.withActive fun L => { L with image := img, undoStack := [], redoStack := [] }

theorem withActive_layers_get?_ne (f : Layer → Layer) (s : AppState) (j : ℕ)
    (hj : j ≠ s.activeLayerIndex.toNat) :
    (s.withActive f).layers.get? j = s.layers.get? j := by
  unfold AppState.withActive
  split
  · exact updateNth_get?_ne _ _ _ _ (by omega)
  · rfl

/-- C10: openFile on a cancelled dialog / failed decode changes nothing;
on success the active layer's buffer becomes the decoded image with both
histories cleared unconditionally, while other layers and the active
index are untouched. -/
theorem c10_openFile_spec (s : AppState) (img : Buf) (hv : validIdx s) :
    s.openFile none = s ∧
    (∃ L, s.getActive? = some L ∧
      (s.openFile (some img)).getActive? =
        some { L with image := img, undoStack := [], redoStack := [] }) ∧
    (s.openFile (some img)).activeLayerIndex = s.activeLayerIndex ∧
    ∀ j : ℕ, j ≠ s.activeLayerIndex.toNat →
      (s.openFile (some img)).layers.get? j = s.layers.get? j := by
  refine ⟨rfl, ?_, ?_, ?_⟩
  · obtain ⟨L, hL⟩ := getActive?_isSome s hv
    refine ⟨L, hL, ?_⟩
    show (s.withActive _).getActive? = _
    rw [getActive?_withActive _ _ hv, hL]
    rfl
  · exact withActive_idx _ s
  · intro j hj
    exact withActive_layers_get?_ne _ s j hj

/-- Witness for `c10_openFile_spec` on a concrete one-layer state. -/
theorem c10_openFile_spec_witness :
    sOne.openFile none = sOne ∧
    (sOne.openFile (some [[Pixel.zero]])).activeLayerIndex =
      sOne.activeLayerIndex := by
  have h := c10_openFile_spec sOne [[Pixel.zero]]
    (by constructor <;> simp [sOne])
  exact ⟨h.1, h.2.2.1⟩

/-- Embeds `QImage::transformed(QTransform().rotate(90))` (clockwise in Qt's
y-down coordinates): pixel (x, y) of the w × h source moves to
(h - 1 - y, x) of the h × w result. -/
def rotateRightB (img : Buf) : Buf :=
  (List.range (bufW img)).map fun (ny : ℕ) => (List.range (bufH img)).map fun (nx : ℕ) =>
    pxD img (ny : ℤ) ((bufH img : ℤ) - 1 - (nx : ℤ))

/-- Embeds `QImage::transformed(QTransform().rotate(-90))`: pixel (x, y) moves
to (y, w - 1 - x). -/
def rotateLeftB (img : Buf) : Buf :=
  (List.range (bufW img)).map fun (ny : ℕ) => (List.range (bufH img)).map fun (nx : ℕ) =>
    pxD img ((bufW img : ℤ) - 1 - (ny : ℤ)) (nx : ℤ)

/-- Embeds `MainWindow::rotateLeft`: index guard, replace the active buffer with
its rotation, recomposite.  NO undo snapshot is pushed and the redo
stack is not cleared. -/
def AppState.rotateLeft (s : AppState) : AppState :=
  s.withActive fun L => { L with image := rotateLeftB L.image }

/-- Embeds `MainWindow::rotateRight` (same structure as rotateLeft). -/
def AppState.rotateRight (s : AppState) : AppState :=
  s.withActive fun L => { L with image := rotateRightB L.image }

/-- Embeds `MainWindow::flipHorizontal`: `image.mirrored(true, false)` reverses
each row.  NO undo snapshot is pushed and the redo stack is not
cleared. -/
def AppState.flipHorizontal (s : AppState) : AppState :=
  s.withActive fun L => { L with image := L.image.map List.reverse }

/-- Embeds `MainWindow::flipVertical`: `image.mirrored(false, true)` reverses
the row order.  Same missing snapshot as flipHorizontal. -/
def AppState.flipVertical (s : AppState) : AppState :=
  s.withActive fun L => { L with image := L.image.reverse }

/-- Embeds `QImage::fill(Qt::transparent)`. -/
def fillTransparent (img : Buf) : Buf :=
  img.map fun row => row.map fun _ => Pixel.zero

/-- Embeds `MainWindow::clearCanvas`: guard, push undo snapshot, fill the active
buffer transparent, clear redo — this path DOES snapshot before
mutating, exactly the `Layer.mutate` pattern. -/
def AppState.clearCanvas (s : AppState) : AppState :=
  s.withActive (Layer.mutate fillTransparent)

/-- Opaque red pixel (premultiplied). -/
def pxRed : Pixel := ⟨1, 0, 0, 1⟩

/-- One layer holding a 1 × 2 buffer [white, red], empty histories. -/
def sC1 : AppState :=
  { layers := [⟨"Layer 1", [[pxWhite, pxRed]], [], [], 1⟩],
    activeLayerIndex := 0, selectionBuffer := none, canvas := cselNone }

/-- C1 exhibit (code bug): `flipHorizontal` on a concrete state replaces
the active buffer with its mirror image — a genuine pixel mutation —
while the layer's undo stack stays empty: no pre-mutation snapshot is
pushed (the source's rotateLeft/rotateRight/flipHorizontal/flipVertical
never call `pushUndoForActiveLayer`), so a following undo cannot restore
the pre-transform buffer. -/
theorem c1_flip_pushes_no_snapshot :
    sC1.flipHorizontal.getActive? =
      some ⟨"Layer 1", [[pxRed, pxWhite]], [], [], 1⟩ ∧
    sC1.getActive? = some ⟨"Layer 1", [[pxWhite, pxRed]], [], [], 1⟩ ∧
    ([[pxRed, pxWhite]] : Buf) ≠ [[pxWhite, pxRed]] := by
  refine ⟨rfl, rfl, ?_⟩
  intro hcontra
  have hg := congrArg (fun l : Buf => ((l.headD []).headD Pixel.zero).g) hcontra
  norm_num [pxRed, pxWhite] at hg

/-- Embeds `MainWindow::compositeLayers` (later variant): nothing to do on an
empty stack; otherwise start from a copy of layer 0's buffer and paint
layers 1..n-1 over it in ascending order with painter opacity set to
each layer's opacity (`p.setOpacity(layers[i].opacity); p.drawImage(0, 0,
layers[i].image)`).  The stored layer buffers are never written — the
painter draws into the detached copy `comp`. -/
def compositeLayers (ls : List Layer) : Option Buf :=
  match ls with
  | [] => none
  | l0 :: rest =>
      some (rest.foldl (fun acc l => overlay acc l.image 0 0 l.opacity) l0.image)

theorem overlay_dims (dst src : Buf) (ox oy : ℤ) (o : ℚ) :
    (overlay dst src ox oy o).length = dst.length ∧
    ∀ y, ((overlay dst src ox oy o).get? y).map List.length =
      (dst.get? y).map List.length := by
  constructor
  · exact imap_length _ dst 0
  · intro y
    rw [overlay, imap_get?]
    cases h : dst.get? y with
    | none => rfl
    | some row => simp [imap_length]

theorem composite_dims : ∀ (rest : List Layer) (base : Buf),
    ((rest.foldl (fun acc l => overlay acc l.image 0 0 l.opacity) base).length
        = base.length) ∧
    ∀ y, ((rest.foldl (fun acc l => overlay acc l.image 0 0 l.opacity) base).get? y).map
        List.length = (base.get? y).map List.length := by
  intro rest
  induction rest with
  | nil => intro base; exact ⟨rfl, fun y => rfl⟩
  | cons l rest ih =>
      intro base
      have hfold : (l :: rest).foldl (fun acc t => overlay acc t.image 0 0 t.opacity) base
          = rest.foldl (fun acc t => overlay acc t.image 0 0 t.opacity)
              (overlay base l.image 0 0 l.opacity) := rfl
      constructor
      · rw [hfold, (ih _).1, (overlay_dims base l.image 0 0 l.opacity).1]
      · intro y
        rw [hfold, (ih _).2 y, (overlay_dims base l.image 0 0 l.opacity).2 y]

theorem blendPx_one (s d : Pixel) : blendPx 1 s d = overPx s d := by
  simp only [blendPx, overPx, one_mul]

theorem blendPx_zero (s d : Pixel) : blendPx 0 s d = d := by
  simp only [blendPx, zero_mul, zero_add, sub_zero, mul_one]

theorem overlay_opacity_zero (dst src : Buf) (ox oy : ℤ) :
    overlay dst src ox oy 0 = dst := by
  rw [overlay]
  apply imap_eq_self
  intro y row _
  apply imap_eq_self
  intro x p _
  split
  · exact blendPx_zero _ _
  · rfl

/-- C6: compositing a nonempty stack produces a buffer whose dimensions
(row count and every row length) equal layer 0's buffer dimensions;
blending with opacity 1 is plain premultiplied alpha-over; painting with
opacity 0 leaves the accumulator unchanged; and a single-layer stack
composites to exactly that layer's buffer (for any opacity, in
particular 1.0, because layer 0's own opacity is never applied).  The
embedding is pure, so no stored layer buffer is modified. -/
theorem c6_compositeLayers_spec :
    (∀ (l0 : Layer) (rest : List Layer), ∃ c,
      compositeLayers (l0 :: rest) = some c ∧
      c.length = l0.image.length ∧
      ∀ y, (c.get? y).map List.length = (l0.image.get? y).map List.length) ∧
    (∀ s d : Pixel, blendPx 1 s d = overPx s d) ∧
    (∀ acc img : Buf, overlay acc img 0 0 0 = acc) ∧
    (∀ l : Layer, compositeLayers [l] = some l.image) := by
  refine ⟨?_, blendPx_one, fun acc img => overlay_opacity_zero acc img 0 0,
    fun l => rfl⟩
  intro l0 rest
  exact ⟨_, rfl, (composite_dims rest l0.image).1, (composite_dims rest l0.image).2⟩

/-- Even-odd (crossing-parity) membership of an integer point in a
polygon — the fill rule of the `QRegion(QPolygon)` clip used for lasso
selections.  The edge list closes the polygon (each vertex joins the
next, the last joins the first). -/
def pointInPoly (poly : List (ℤ × ℤ)) (q : ℤ × ℤ) : Bool :=
  (poly.zip (poly.rotate 1)).foldl (fun acc e =>
    if (e.1.2 ≤ q.2 ∧ q.2 < e.2.2) ∨ (e.2.2 ≤ q.2 ∧ q.2 < e.1.2) then
      if (q.1 : ℚ) < (e.1.1 : ℚ) +
          ((q.2 : ℚ) - (e.1.2 : ℚ)) / ((e.2.2 : ℚ) - (e.1.2 : ℚ)) *
            ((e.2.1 : ℚ) - (e.1.1 : ℚ)) then !acc else acc
    else acc) false

/-- The lasso branch of `Canvas::getSelectionImage`: a transparent buffer
of the selection rectangle's size receiving the target image through the
polygon clip region — pixels outside the polygon stay transparent. -/
def lassoImage (img : Buf) (r : Rect) (poly : List (ℤ × ℤ)) : Buf :=
  (List.range (rectH r)).map fun (j : ℕ) => (List.range (rectW r)).map fun (i : ℕ) =>
    if pointInPoly poly (r.x1 + (i : ℤ), r.y1 + (j : ℤ)) then
      pxD img (r.x1 + (i : ℤ)) (r.y1 + (j : ℤ))
    else Pixel.zero

/-- Embeds `Canvas::getSelectionImage` (mainwindow.h lines 69-92): a null image
(`none`) without a selection or a target; `targetImg->copy(selectionRect)`
for a rectangular selection; the polygon-clipped blit for a lasso (null
when the polygon is empty); null for every other tool.  `targetImg`
aliases the active layer's buffer. -/
def AppState.getSelectionImage (s : AppState) : Option Buf :=
  if ¬s.canvas.hasSelection then none
  else
    match s.getActive? with
    | none => none
    | some L =>
        match s.canvas.currentTool with
        | Tool.RECT_SELECT => some (copyRect L.image s.canvas.selectionRect)
        | Tool.LASSO_SELECT =>
            if s.canvas.lassoPolygon = [] then none
            else some (lassoImage L.image s.canvas.selectionRect s.canvas.lassoPolygon)
        | _ => none

/-- Embeds `MainWindow::copySelection`: no-op without a selection; otherwise the
clipboard receives the materialized selection. -/
def AppState.copySelection (s : AppState) : AppState :=
  if ¬s.canvas.hasSelection then s
  else { s with selectionBuffer := s.getSelectionImage }

/-- Embeds `MainWindow::cutSelection`: no-op without a selection; otherwise push
the undo snapshot FIRST, store the materialized selection in the
clipboard, then Clear-fill the whole `selectionRect` of the active
layer's buffer (the polygon is not consulted when clearing).  The redo
stack is NOT cleared on this path. -/
def AppState.cutSelection (s : AppState) : AppState :=
  if ¬s.canvas.hasSelection then s
  else
    let s1 := s.pushUndoForActiveLayer
    let s2 := { s1 with selectionBuffer := s1.getSelectionImage }
    s2.withActive fun L =>
      { L with image := clearRect L.image s2.canvas.selectionRect }

/-- Embeds `MainWindow::pasteSelection`: no-op on a null clipboard; otherwise
push the undo snapshot, then `drawImage` the clipboard at the selection
rectangle's top-left (SourceOver, painter opacity 1).  The redo stack is
NOT cleared on this path either. -/
def AppState.pasteSelection (s : AppState) : AppState :=
  match s.selectionBuffer with
  | none => s
  | some buf =>
      let s1 := s.pushUndoForActiveLayer
      s1.withActive fun L =>
        { L with image := (overlay L.image buf
            s.canvas.selectionRect.x1 s.canvas.selectionRect.y1 1) }

/-- Opaque green pixel (premultiplied). -/
def pxGreen : Pixel := ⟨0, 1, 0, 1⟩

/-- One white 1 × 1 layer with a nonempty REDO stack (as left behind by
an undo), a full-buffer rectangular selection, and a red clipboard. -/
def sC3 : AppState :=
  { layers := [⟨"Layer 1", [[pxWhite]], [], [[[pxGreen]]], 1⟩],
    activeLayerIndex := 0, selectionBuffer := some [[pxRed]],
    canvas := ⟨Tool.RECT_SELECT, true, ⟨0, 0, 0, 0⟩, []⟩ }

/-- C3 exhibit (code bug): `cutSelection` and `pasteSelection` commit a
mutation on the active layer but never call `clearRedoForActiveLayer`,
so the redo stack survives; a `redo()` right after the cut is NOT a
no-op — it replaces the cut result with the stale snapshot held in the
redo stack. -/
theorem c3_cut_paste_keep_redo :
    (sC3.cutSelection.getActive?.map fun L => L.redoStack) = some [[[pxGreen]]] ∧
    sC3.cutSelection.redo.activeImage? = some [[pxGreen]] ∧
    sC3.cutSelection.activeImage? = some [[Pixel.zero]] ∧
    ([[pxGreen]] : Buf) ≠ [[Pixel.zero]] ∧
    (sC3.pasteSelection.getActive?.map fun L => L.redoStack) = some [[[pxGreen]]] := by
  refine ⟨rfl, rfl, rfl, ?_, rfl⟩
  intro hcontra
  have hg := congrArg (fun l : Buf => ((l.headD []).headD Pixel.zero).g) hcontra
  norm_num [pxGreen, Pixel.zero] at hg

/-- Half-transparent gray pixel (premultiplied, alpha 1/2). -/
def pxHalf : Pixel := ⟨1/2, 1/2, 1/2, 1/2⟩

/-- A 1 × 1 half-transparent layer with a full-buffer rectangular
selection and an empty clipboard. -/
def sC7 : AppState :=
  { layers := [⟨"Layer 1", [[pxHalf]], [], [], 1⟩],
    activeLayerIndex := 0, selectionBuffer := none,
    canvas := ⟨Tool.RECT_SELECT, true, ⟨0, 0, 0, 0⟩, []⟩ }

/-- C7 counterexample: copy then paste at the same anchor on a
half-transparent pixel.  Paste composites with SourceOver (alpha-over),
so the pixel is blended over itself: premultiplied (1/2,1/2,1/2,1/2)
becomes (3/4,3/4,3/4,3/4) ≠ the original — the selected region is NOT
reproduced bit-for-bit. -/
theorem c7_copy_paste_cex :
    sC7.copySelection.pasteSelection.activeImage? =
      some [[blendPx 1 pxHalf pxHalf]] ∧
    blendPx 1 pxHalf pxHalf = ⟨3/4, 3/4, 3/4, 3/4⟩ ∧
    sC7.activeImage? = some [[pxHalf]] ∧
    (⟨3/4, 3/4, 3/4, 3/4⟩ : Pixel) ≠ pxHalf := by
  refine ⟨rfl, ?_, rfl, ?_⟩
  · simp only [blendPx, pxHalf]
    norm_num
  · intro hcontra
    have hr := congrArg Pixel.r hcontra
    norm_num [pxHalf] at hr

/-- Alpha-over of a fully opaque or fully transparent premultiplied
pixel onto itself reproduces the pixel. -/
theorem blendPx_self (p : Pixel) (h : p.a = 1 ∨ p = Pixel.zero) :
    blendPx 1 p p = p := by
  rcases h with h1 | h0
  · cases p with
    | mk pr pg pb pa =>
        simp only at h1
        subst h1
        simp only [blendPx]
        norm_num
  · subst h0
    simp only [blendPx, Pixel.zero]
    norm_num

theorem copyRect_getPx? (img : Buf) (r : Rect) (i j : ℕ)
    (hi : i < rectW r) (hj : j < rectH r) :
    getPx? (copyRect img r) i j =
      some (pxD img (r.x1 + (i : ℤ)) (r.y1 + (j : ℤ))) := by
  unfold getPx? copyRect
  rw [List.get?_map, List.get?_range hj]
  simp only [Option.map_some', Option.some_bind]
  rw [List.get?_map, List.get?_range hi]
  rfl

theorem copyRect_getPx?_none_x (img : Buf) (r : Rect) (i j : ℕ)
    (hi : rectW r ≤ i) : getPx? (copyRect img r) i j = none := by
  unfold getPx? copyRect
  by_cases hj : j < rectH r
  · rw [List.get?_map, List.get?_range hj]
    simp only [Option.map_some', Option.some_bind]
    apply List.get?_eq_none.2
    simpa using hi
  · rw [List.get?_map, List.get?_eq_none.2 (by simpa using hj)]
    rfl

theorem copyRect_getPx?_none_y (img : Buf) (r : Rect) (i j : ℕ)
    (hj : rectH r ≤ j) : getPx? (copyRect img r) i j = none := by
  unfold getPx? copyRect
  rw [List.get?_map, List.get?_eq_none.2 (by simpa using hj)]
  rfl

/-- Pasting a rectangular copy back at its own anchor is the identity
when every pixel of the copied region is fully opaque or fully
transparent (alpha-over then reproduces each pixel). -/
theorem paste_copy_id (img : Buf) (r : Rect)
    (hopq : ∀ (x y : ℕ) (p : Pixel), getPx? img x y = some p →
      inRect r (x : ℤ) (y : ℤ) → p.a = 1 ∨ p = Pixel.zero) :
    overlay img (copyRect img r) r.x1 r.y1 1 = img := by
  rw [overlay]
  apply imap_eq_self
  intro y row hrow
  apply imap_eq_self
  intro x p hp
  simp only [Nat.zero_add]
  have hpimg : getPx? img x y = some p := by
    unfold getPx?
    rw [hrow]
    simpa using hp
  by_cases hcov : r.x1 ≤ (x : ℤ) ∧ r.y1 ≤ (y : ℤ)
  · rw [if_pos hcov]
    by_cases hin : (x : ℤ) ≤ r.x2 ∧ (y : ℤ) ≤ r.y2
    · have hi : ((x : ℤ) - r.x1).toNat < rectW r := by
        unfold rectW
        omega
      have hj : ((y : ℤ) - r.y1).toNat < rectH r := by
        unfold rectH
        omega
      rw [copyRect_getPx? img r _ _ hi hj]
      have hxe : r.x1 + ((((x : ℤ) - r.x1).toNat : ℤ)) = (x : ℤ) := by omega
      have hye : r.y1 + ((((y : ℤ) - r.y1).toNat : ℤ)) = (y : ℤ) := by omega
      rw [hxe, hye]
      have hpx : pxD img (x : ℤ) (y : ℤ) = p := by
        unfold pxD
        rw [if_pos ⟨Int.natCast_nonneg x, Int.natCast_nonneg y⟩]
        simp [hpimg]
      rw [hpx]
      exact blendPx_self p
        (hopq x y p hpimg ⟨hcov.1, hin.1, hcov.2, hin.2⟩)
    · rcases not_and_or.1 hin with hx | hy
      · rw [copyRect_getPx?_none_x img r _ _ (by unfold rectW; omega)]
      · rw [copyRect_getPx?_none_y img r _ _ (by unfold rectH; omega)]
  · rw [if_neg hcov]

/-- The clipboard after `pasteSelection` on a state whose clipboard holds
`buf`: the active image receives `buf` alpha-over at the selection
rectangle's top-left. -/
theorem pasteSelection_activeImage (s : AppState) (L : Layer) (buf : Buf)
    (hL : s.getActive? = some L) (hbuf : s.selectionBuffer = some buf) :
    s.pasteSelection.activeImage? =
      some (overlay L.image buf s.canvas.selectionRect.x1
        s.canvas.selectionRect.y1 1) := by
  have hv := getActive?_some_valid s L hL
  have hps : s.pasteSelection = (s.pushUndoForActiveLayer).withActive
      (fun L => { L with image := (overlay L.image buf
        s.canvas.selectionRect.x1 s.canvas.selectionRect.y1 1) }) := by
    unfold AppState.pasteSelection
    rw [hbuf]
  rw [hps]
  unfold AppState.activeImage? AppState.pushUndoForActiveLayer
  rw [withActive_comp, getActive?_withActive _ _ hv, hL]
  rfl

/-- C7 (amended): copy-then-paste at the same anchor reproduces the
active layer's buffer bit-for-bit PROVIDED every pixel inside the
selection rectangle is fully opaque or fully transparent; without that
proviso paste re-composites translucent pixels over themselves
(`c7_copy_paste_cex`). -/
theorem c7_paste_copy_roundtrip (s : AppState) (L : Layer)
    (hL : s.getActive? = some L)
    (hsel : s.canvas.hasSelection = true)
    (htool : s.canvas.currentTool = Tool.RECT_SELECT)
    (hopq : ∀ (x y : ℕ) (p : Pixel), getPx? L.image x y = some p →
      inRect s.canvas.selectionRect (x : ℤ) (y : ℤ) → p.a = 1 ∨ p = Pixel.zero) :
    s.copySelection.pasteSelection.activeImage? = s.activeImage? := by
  have hv := getActive?_some_valid s L hL
  have hgsi : s.getSelectionImage =
      some (copyRect L.image s.canvas.selectionRect) := by
    unfold AppState.getSelectionImage
    rw [hL, htool]
    simp [hsel]
  have hcopy : s.copySelection =
      { s with selectionBuffer := some (copyRect L.image s.canvas.selectionRect) } := by
    unfold AppState.copySelection
    rw [if_neg (by simp [hsel]), hgsi]
  rw [hcopy,
    pasteSelection_activeImage
      { s with selectionBuffer := some (copyRect L.image s.canvas.selectionRect) }
      L (copyRect L.image s.canvas.selectionRect) hL rfl]
  show some (overlay L.image (copyRect L.image s.canvas.selectionRect)
    s.canvas.selectionRect.x1 s.canvas.selectionRect.y1 1) = s.activeImage?
  rw [paste_copy_id L.image s.canvas.selectionRect hopq]
  unfold AppState.activeImage?
  rw [hL]
  rfl

/-- A 1 × 1 fully opaque layer with a full-buffer rectangular selection. -/
def sC7opaque : AppState :=
  { layers := [⟨"Layer 1", [[pxWhite]], [], [], 1⟩],
    activeLayerIndex := 0, selectionBuffer := none,
    canvas := ⟨Tool.RECT_SELECT, true, ⟨0, 0, 0, 0⟩, []⟩ }

/-- Witness for `c7_paste_copy_roundtrip` on an opaque concrete state. -/
theorem c7_paste_copy_roundtrip_witness :
    sC7opaque.copySelection.pasteSelection.activeImage? =
      sC7opaque.activeImage? := by
  apply c7_paste_copy_roundtrip sC7opaque ⟨"Layer 1", [[pxWhite]], [], [], 1⟩ rfl rfl rfl
  intro x y p hp _
  left
  cases y with
  | zero =>
      cases x with
      | zero =>
          simp [getPx?] at hp
          rw [← hp]
          norm_num [pxWhite]
      | succ n => simp [getPx?] at hp
  | succ n => simp [getPx?] at hp

theorem clearRect_get_in (img : Buf) (r : Rect) (x y : ℕ) (p : Pixel)
    (hp : getPx? img x y = some p) (hin : inRect r (x : ℤ) (y : ℤ)) :
    getPx? (clearRect img r) x y = some Pixel.zero := by
  unfold getPx? at hp ⊢
  cases hrow : img.get? y with
  | none => rw [hrow] at hp; simp at hp
  | some row =>
      rw [hrow] at hp
      simp only [Option.some_bind] at hp
      unfold clearRect
      rw [imap_get?, hrow]
      simp only [Option.map_some', Option.some_bind]
      rw [imap_get?, hp]
      simp only [Option.map_some', Nat.zero_add]
      rw [if_pos (by simpa using hin)]

theorem clearRect_get_out (img : Buf) (r : Rect) (x y : ℕ)
    (hout : ¬inRect r (x : ℤ) (y : ℤ)) :
    getPx? (clearRect img r) x y = getPx? img x y := by
  unfold getPx? clearRect
  rw [imap_get?]
  cases hrow : img.get? y with
  | none => rfl
  | some row =>
      simp only [Option.map_some', Option.some_bind]
      rw [imap_get?]
      cases hx : row.get? x with
      | none => rfl
      | some p =>
          simp only [Option.map_some', Nat.zero_add]
          rw [if_neg (by simpa using hout)]

theorem pushUndo_getLast (L : Layer) :
    (Layer.pushUndo L).undoStack.getLast? = some L.image := by
  simp only [Layer.pushUndo]
  split
  case isTrue hgt =>
    cases hU : L.undoStack with
    | nil =>
        rw [hU] at hgt
        simp at hgt
    | cons a t =>
        simp only [List.cons_append, List.drop_succ_cons, List.drop_zero]
        exact List.getLast?_concat _
  case isFalse hgt =>
    exact List.getLast?_concat _

theorem validIdx_withActive (f : Layer → Layer) (s : AppState)
    (h : validIdx s) : validIdx (s.withActive f) := by
  unfold AppState.withActive
  rw [if_pos h]
  exact ⟨h.1, by simpa [updateNth_length] using h.2⟩

/-- Running `pushUndoForActiveLayer` does not change the materialized selection:
the canvas state is untouched and the active layer's image is copied,
not altered. -/
theorem getSelectionImage_pushUndo (s : AppState) (L : Layer)
    (hL : s.getActive? = some L) :
    s.pushUndoForActiveLayer.getSelectionImage = s.getSelectionImage := by
  have hv := getActive?_some_valid s L hL
  unfold AppState.pushUndoForActiveLayer AppState.getSelectionImage
  rw [withActive_canvas, getActive?_withActive _ _ hv, hL]
  rfl

theorem cutSelection_eq (s : AppState) (hsel : s.canvas.hasSelection = true) :
    s.cutSelection =
      ({ s.pushUndoForActiveLayer with
          selectionBuffer := s.pushUndoForActiveLayer.getSelectionImage }).withActive
        fun L => { L with image := (clearRect L.image
                     s.pushUndoForActiveLayer.canvas.selectionRect) } := by
  unfold AppState.cutSelection
  rw [if_neg (by simp [hsel])]

/-- C8 (amended): `cutSelection` stores the materialized selection in the
clipboard and pushes an undo snapshot of the pre-cut buffer before
mutating, then alpha-clears the ENTIRE selection rectangle of the active
layer's buffer: every rectangle pixel becomes transparent and every
pixel outside the rectangle is untouched.  For a lasso selection the
polygon is NOT consulted when clearing — pixels inside the bounding
rectangle but outside the polygon are cleared too
(`c8_lasso_cut_cex`). -/
theorem c8_cutSelection_spec (s : AppState) (L : Layer)
    (hL : s.getActive? = some L) (hsel : s.canvas.hasSelection = true) :
    s.cutSelection.selectionBuffer = s.getSelectionImage ∧
    (s.cutSelection.getActive?.map fun t => t.undoStack.getLast?) =
      some (some L.image) ∧
    s.cutSelection.activeImage? =
      some (clearRect L.image s.canvas.selectionRect) ∧
    (∀ (x y : ℕ) (p : Pixel), getPx? L.image x y = some p →
      inRect s.canvas.selectionRect (x : ℤ) (y : ℤ) →
      getPx? (clearRect L.image s.canvas.selectionRect) x y = some Pixel.zero) ∧
    (∀ x y : ℕ, ¬inRect s.canvas.selectionRect (x : ℤ) (y : ℤ) →
      getPx? (clearRect L.image s.canvas.selectionRect) x y =
        getPx? L.image x y) := by
  have hv := getActive?_some_valid s L hL
  have hv2 : validIdx ({ s.pushUndoForActiveLayer with
      selectionBuffer := s.pushUndoForActiveLayer.getSelectionImage }) :=
    validIdx_withActive Layer.pushUndo s hv
  have hg1 : s.pushUndoForActiveLayer.getActive? = some L.pushUndo := by
    unfold AppState.pushUndoForActiveLayer
    rw [getActive?_withActive _ _ hv, hL]
    rfl
  have hg2 : ({ s.pushUndoForActiveLayer with
      selectionBuffer := s.pushUndoForActiveLayer.getSelectionImage }).getActive?
      = some L.pushUndo := hg1
  have hrect : s.pushUndoForActiveLayer.canvas = s.canvas :=
    withActive_canvas _ _
  refine ⟨?_, ?_, ?_, ?_, ?_⟩
  · rw [cutSelection_eq s hsel, withActive_selectionBuffer]
    exact getSelectionImage_pushUndo s L hL
  · rw [cutSelection_eq s hsel, getActive?_withActive _ _ hv2, hg2]
    exact congrArg some (pushUndo_getLast L)
  · rw [cutSelection_eq s hsel]
    unfold AppState.activeImage?
    rw [getActive?_withActive _ _ hv2, hg2, hrect]
    rfl
  · intro x y p hp hin
    exact clearRect_get_in L.image s.canvas.selectionRect x y p hp hin
  · intro x y hout
    exact clearRect_get_out L.image s.canvas.selectionRect x y hout

/-- A 3 × 3 opaque white layer with a triangular lasso selection
(vertices (0,0), (2,0), (0,2)) whose bounding rectangle is (0,0)-(2,2). -/
def sC8 : AppState :=
  { layers := [⟨"Layer 1", List.replicate 3 (List.replicate 3 pxWhite), [], [], 1⟩],
    activeLayerIndex := 0, selectionBuffer := none,
    canvas := ⟨Tool.LASSO_SELECT, true, ⟨0, 0, 2, 2⟩, [(0, 0), (2, 0), (0, 2)]⟩ }

/-- C8 counterexample: pixel (2,2) lies OUTSIDE the lasso polygon (even-odd
rule) but inside its bounding rectangle; `cutSelection` clears it to
transparent anyway, because the source Clear-fills the whole
`selectionRect` instead of the polygon region. -/
theorem c8_lasso_cut_cex :
    pointInPoly [(0, 0), (2, 0), (0, 2)] (2, 2) = false ∧
    getPx? (sC8.cutSelection.activeImage?.getD []) 2 2 = some Pixel.zero ∧
    getPx? ((sC8.activeImage?).getD []) 2 2 = some pxWhite ∧
    pxWhite ≠ Pixel.zero := by
  refine ⟨rfl, rfl, rfl, ?_⟩
  intro hcontra
  have hr := congrArg Pixel.r hcontra
  norm_num [pxWhite, Pixel.zero] at hr

/-- Witness for `c8_cutSelection_spec` on the concrete lasso state. -/
theorem c8_cutSelection_spec_witness :
    sC8.cutSelection.activeImage? =
      some (clearRect (List.replicate 3 (List.replicate 3 pxWhite)) ⟨0, 0, 2, 2⟩) :=
  (c8_cutSelection_spec sC8
    ⟨"Layer 1", List.replicate 3 (List.replicate 3 pxWhite), [], [], 1⟩
    rfl rfl).2.2.1
